import Mathlib

/-!
Verification of the Arrata-LIB dice/stat/obstacle core.

Rust strings are modelled as lists of Unicode scalar values (`List Nat`).
Rust's byte-based slicing `&value[i..]` is modelled via the UTF-8 byte
length of each scalar value: the slice panics (here: `none`) when `i`
exceeds the byte length or is not a character boundary.
Fallible operations (Rust panics) are modelled with `Option`.
-/

/-- The number of bytes the UTF-8 encoding of a Unicode scalar value uses. -/
def utf8Size (c : Nat) : Nat :=
  if c < 0x80 then 1 else if c < 0x800 then 2 else if c < 0x10000 then 3 else 4

/-- Rust `str::is_char_boundary` on the modelled string: byte index `i`
is `0`, the total byte length, or the start of a character. -/
def isCharBoundary : List Nat → Nat → Bool
  | _, 0 => true
  | [], _ + 1 => false
  | c :: rest, i + 1 => if i + 1 < utf8Size c then false else isCharBoundary rest (i + 1 - utf8Size c)

/-- Drop the characters occupying the first `i` bytes (meaningful when
`i` is a character boundary). -/
def sliceFrom : List Nat → Nat → List Nat
  | s, 0 => s
  | [], _ + 1 => []
  | c :: rest, i + 1 => sliceFrom rest (i + 1 - utf8Size c)

/-- Rust `&value[i..]`: `none` models the out-of-bounds / non-boundary panic. -/
def rustSliceFrom (s : List Nat) (i : Nat) : Option (List Nat) :=
  if isCharBoundary s i then some (sliceFrom s i) else none

/-- Accumulating decimal-digit reader: fails on any non-digit scalar value. -/
def parseDigitsGo : List Nat → Nat → Option Nat
  | [], acc => some acc
  | c :: cs, acc =>
    if 48 ≤ c ∧ c ≤ 57 then parseDigitsGo cs (acc * 10 + (c - 48)) else none

/-- A nonempty all-digit string parses to its value; anything else fails. -/
def parseDigits (cs : List Nat) : Option Nat :=
  match cs with
  | [] => none
  | _ :: _ => parseDigitsGo cs 0

/-- Rust `str::parse::<usize>`: an optional leading `+` (scalar value 43)
followed by one or more ASCII digits. -/
def parseUsize (cs : List Nat) : Option Nat :=
  match cs with
  | [] => none
  | c :: rest => if c = 43 then parseDigits rest else parseDigits (c :: rest)

/-- The decimal rendering of a natural number, as Rust `{}` formatting
emits it (most significant digit first, `0` rendered as `"0"`). -/
def natRepr (n : Nat) : List Nat :=
  if _ : n < 10 then [48 + n]
  else natRepr (n / 10) ++ [48 + n % 10]
decreasing_by exact Nat.div_lt_self (by omega) (by omega)

/-- `character.rs`: `enum Quality { Basic = 4, Adept = 3, Superb = 2 }`. -/
inductive Quality
  | Basic
  | Adept
  | Superb
deriving DecidableEq

/-- The discriminant of `Quality`, as read by `stat.quality as u8`:
the lower face-value threshold for a successful die. -/
def Quality.threshold : Quality → Nat
  | .Basic => 4
  | .Adept => 3
  | .Superb => 2

/-- The capability ordering on qualities: `a` is strictly more capable
than `b` when its success threshold is strictly lower. -/
def capabilityGt (a b : Quality) : Prop := a.threshold < b.threshold

instance (a b : Quality) : Decidable (capabilityGt a b) := by
  unfold capabilityGt; infer_instance

/-- `character.rs`: `struct Stat`. -/
structure Stat where
  name : List Nat
  quality : Quality
  quantity : Nat
  checks : Option Nat
deriving DecidableEq

/-- `Stat::new`. -/
def Stat.new (name : List Nat) : Stat :=
  { name := name, quality := Quality.Basic, quantity := 1, checks := some 0 }

/-- `impl From<String> for Stat` (`character.rs`): first character picks
the quality (`A`/`a` = 65/97 Adept, `S`/`s` = 83/115 Superb, anything
else Basic), `value[1..]` parses as the quantity with fallback 1; an
empty string gives `Stat::new("")`. `none` models the slicing panic. -/
def statFromString (value : List Nat) : Option Stat :=
  match value.head? with
  | some c =>
    let quality : Quality :=
      if c = 65 ∨ c = 97 then Quality.Adept
      else if c = 83 ∨ c = 115 then Quality.Superb
      else Quality.Basic
    match rustSliceFrom value 1 with
    | none => none
    | some rest =>
      some { name := [], quality := quality,
             quantity := (parseUsize rest).getD 1, checks := some 0 }
  | none => some (Stat.new [])

/-- `impl Display for Stat` (`character.rs`): a quality letter
(`B` = 66, `A` = 65, `S` = 83) followed by the decimal quantity. -/
def formatStat (stat : Stat) : List Nat :=
  (match stat.quality with
   | Quality.Basic => 66
   | Quality.Adept => 65
   | Quality.Superb => 83) :: natRepr stat.quantity

/-- `obstacle.rs`: `struct Obstacle(pub usize)`. -/
structure Obstacle where
  val : Nat
deriving DecidableEq

/-- `impl From<String> for Obstacle` (`obstacle.rs`): `value[2..]` parses
as the obstacle level with fallback 1. `none` models the slicing panic. -/
def obstacleFromString (value : List Nat) : Option Obstacle :=
  match rustSliceFrom value 2 with
  | none => none
  | some rest => some { val := (parseUsize rest).getD 1 }

/-- `dice.rs`: `struct RollResult`. -/
structure RollResult where
  successes : Int
  failures : Nat
  results : List Nat
deriving DecidableEq

/-- One die draw: `(rand::random::<u8>() % 6) + 1` applied to the byte `b`
supplied by the randomness source. -/
def dieFace (b : Nat) : Nat := b % 6 + 1

/-- The drawing loop of `roll_stat` (`dice.rs`), with an explicit fuel
bound: `none` means the loop has not finished within `fuel` iterations.
Each iteration draws `dieFace (rng i)`; under advantage a 6 adds a die,
under disadvantage a 1 costs a success; a face at or above `quality`
counts as a success, below it as a failure; the face is recorded. -/
def rollLoop (adv dis quality : Nat) (rng : Nat → Nat) :
    Nat → Nat → Nat → Int → Nat → List Nat → Option (Int × Nat × List Nat)
  | 0, quantity, _, s, f, res =>
    if quantity = 0 then some (s, f, res) else none
  | fuel + 1, quantity, i, s, f, res =>
    if quantity = 0 then some (s, f, res)
    else
      let result := dieFace (rng i)
      let quantity2 := if 0 < adv ∧ result = 6 then quantity + 1 else quantity
      let s2 := if 0 < adv ∧ result = 6 then s
                else if 0 < dis ∧ result = 1 then s - 1 else s
      let s3 := s2 + (if quality ≤ result then 1 else 0)
      let f2 := f + (if result < quality then 1 else 0)
      rollLoop adv dis quality rng fuel (quantity2 - 1) (i + 1) s3 f2 (res ++ [result])

/-- `roll_stat` (`dice.rs`) with a fuel bound on the drawing loop:
advantage above level 1 adds dice, disadvantage above level 1 removes
dice or aborts the roll with the zero result when it would remove more
dice than there are. -/
def rollStatFuel (fuel : Nat) (stat : Stat) (adv dis : Nat) (rng : Nat → Nat) :
    Option RollResult :=
  let quantity := stat.quantity + (if 0 < adv then adv - 1 else 0)
  let quality := stat.quality.threshold
  if 0 < dis ∧ quantity < dis - 1 then
    some { successes := 0, failures := 0, results := [] }
  else
    let quantity2 := quantity - (if 0 < dis then dis - 1 else 0)
    (rollLoop adv dis quality rng fuel quantity2 0 0 0 []).map
      fun out => { successes := out.1, failures := out.2.1, results := out.2.2 }

/-- `B1`: the quality+quantity payload of `Stat::new`. -/
def statB1 : Stat := { name := [], quality := Quality.Basic, quantity := 1, checks := some 0 }

/-- The stat parsed from `"A8"`. -/
def statA8 : Stat := { name := [], quality := Quality.Adept, quantity := 8, checks := some 0 }

/-- How many of the 256 equally likely byte values map to face `f`. -/
def facePreimages (f : Nat) : Nat :=
  ((List.range 256).filter fun b => dieFace b = f).length

/-- The quality and quantity carried by the textual stat notation. -/
def statQQ (st : Stat) : Quality × Nat := (st.quality, st.quantity)

example : statFromString [65, 56] = some statA8 := by decide
example : rollStatFuel 1 statB1 0 2 (fun _ => 0) =
    some { successes := 0, failures := 0, results := [] } := by decide
example : obstacleFromString [] = none := by decide
example : statFromString [233] = none := by decide

/-- A byte stream whose every draw is the face 6. -/
def rngSix : Nat → Nat := fun _ => 5

/-- A byte stream whose every draw is the face 1. -/
def rngOne : Nat → Nat := fun _ => 0

lemma rollLoop_q0 (adv dis quality : Nat) (rng : Nat → Nat) (fuel i : Nat)
    (s : Int) (f : Nat) (res : List Nat) :
    rollLoop adv dis quality rng fuel 0 i s f res = some (s, f, res) := by
  cases fuel <;> simp [rollLoop]

lemma rollLoop_adv0_length (dis quality : Nat) (rng : Nat → Nat) :
    ∀ fuel q i (s : Int) (f : Nat) (res : List Nat) out,
      rollLoop 0 dis quality rng fuel q i s f res = some out →
      out.2.2.length = res.length + q := by
  intro fuel
  induction fuel with
  | zero =>
    intro q i s f res out h
    by_cases hq : q = 0
    · subst hq
      simp [rollLoop] at h
      simp [← h]
    · simp [rollLoop, hq] at h
  | succ fuel ih =>
    intro q i s f res out h
    by_cases hq : q = 0
    · subst hq
      simp [rollLoop] at h
      simp [← h]
    · simp only [rollLoop, hq, if_false] at h
      simp only [Nat.lt_irrefl, false_and, if_false] at h
      have := ih _ _ _ _ _ _ h
      simp only [List.length_append, List.length_cons, List.length_nil] at this
      omega

lemma rollLoop_adv0_some (dis quality : Nat) (rng : Nat → Nat) :
    ∀ fuel q i (s : Int) (f : Nat) (res : List Nat), q ≤ fuel →
      ∃ out, rollLoop 0 dis quality rng fuel q i s f res = some out := by
  intro fuel
  induction fuel with
  | zero =>
    intro q i s f res hfq
    have hq : q = 0 := by omega
    subst hq
    exact ⟨(s, f, res), rollLoop_q0 _ _ _ _ _ _ _ _ _⟩
  | succ fuel ih =>
    intro q i s f res hfq
    by_cases hq : q = 0
    · subst hq
      exact ⟨(s, f, res), rollLoop_q0 _ _ _ _ _ _ _ _ _⟩
    · obtain ⟨out, hout⟩ :=
        ih (q - 1) (i + 1)
          ((if 0 < dis ∧ dieFace (rng i) = 1 then s - 1 else s) +
            (if quality ≤ dieFace (rng i) then 1 else 0))
          (f + (if dieFace (rng i) < quality then 1 else 0))
          (res ++ [dieFace (rng i)]) (by omega)
      refine ⟨out, ?_⟩
      simp only [rollLoop, hq, if_false]
      simp only [Nat.lt_irrefl, false_and, if_false]
      exact hout

lemma rollLoop_dis0_spec (adv quality : Nat) (rng : Nat → Nat) :
    ∀ fuel q i (s : Int) (f : Nat) (res : List Nat) out,
      rollLoop adv 0 quality rng fuel q i s f res = some out →
      ∃ extra, out.2.2 = res ++ extra ∧
        out.1 = s + (extra.countP fun x => decide (quality ≤ x)) ∧
        out.2.1 = f + extra.countP fun x => decide (x < quality) := by
  intro fuel
  induction fuel with
  | zero =>
    intro q i s f res out h
    by_cases hq : q = 0
    · subst hq
      simp [rollLoop] at h
      exact ⟨[], by simp [← h]⟩
    · simp [rollLoop, hq] at h
  | succ fuel ih =>
    intro q i s f res out h
    by_cases hq : q = 0
    · subst hq
      simp [rollLoop] at h
      exact ⟨[], by simp [← h]⟩
    · simp only [rollLoop, hq, if_false] at h
      simp only [Nat.lt_irrefl, false_and, if_false, ite_self] at h
      obtain ⟨extra, hres, hs, hf⟩ := ih _ _ _ _ _ _ h
      refine ⟨dieFace (rng i) :: extra, ?_, ?_, ?_⟩
      · simp only [hres, List.append_assoc, List.singleton_append]
      · rw [hs, List.countP_cons]
        by_cases hle : quality ≤ dieFace (rng i)
        · simp [hle]
          ring
        · simp [hle]
      · rw [hf, List.countP_cons]
        by_cases hlt : dieFace (rng i) < quality
        · simp [hlt]
          omega
        · simp [hlt]

lemma countP_threshold_split (quality : Nat) :
    ∀ l : List Nat,
      (l.countP fun x => decide (quality ≤ x)) +
        (l.countP fun x => decide (x < quality)) = l.length := by
  intro l
  induction l with
  | nil => simp
  | cons a l ih =>
    simp only [List.countP_cons, List.length_cons]
    by_cases h : quality ≤ a
    · have h2 : ¬ a < quality := by omega
      simp only [h, h2, decide_eq_true_eq, if_pos, if_neg, not_false_eq_true]
      omega
    · have h2 : a < quality := by omega
      simp only [h, h2, decide_eq_true_eq, if_pos, if_neg, not_false_eq_true]
      omega

lemma rollLoop_allSix_none (adv dis quality : Nat) (hadv : 0 < adv) :
    ∀ fuel q i (s : Int) (f : Nat) (res : List Nat), 0 < q →
      rollLoop adv dis quality rngSix fuel q i s f res = none := by
  intro fuel
  induction fuel with
  | zero =>
    intro q i s f res hq
    simp [rollLoop, Nat.pos_iff_ne_zero.mp hq]
  | succ fuel ih =>
    intro q i s f res hq
    have hq0 : ¬ q = 0 := by omega
    simp only [rollLoop, hq0, if_false]
    have hface : dieFace (rngSix i) = 6 := rfl
    simp only [hface, hadv, and_true, if_pos, Nat.add_sub_cancel]
    exact ih q (i + 1) _ _ _ (by omega)

lemma natRepr_digits : ∀ n, ∀ c ∈ natRepr n, 48 ≤ c ∧ c ≤ 57 := by
  intro n
  induction n using Nat.strong_induction_on with
  | _ n ih =>
    intro c hc
    rw [natRepr] at hc
    by_cases h : n < 10
    · rw [dif_pos h] at hc
      simp at hc
      omega
    · rw [dif_neg h] at hc
      simp at hc
      rcases hc with hc | hc
      · exact ih (n / 10) (Nat.div_lt_self (by omega) (by omega)) c hc
      · have hm : n % 10 < 10 := Nat.mod_lt n (by omega)
        omega

lemma natRepr_ne_nil (n : Nat) : natRepr n ≠ [] := by
  rw [natRepr]
  by_cases h : n < 10
  · rw [dif_pos h]
    simp
  · rw [dif_neg h]
    simp

lemma parseDigitsGo_append : ∀ xs ys acc,
    parseDigitsGo (xs ++ ys) acc =
      (parseDigitsGo xs acc).bind fun a => parseDigitsGo ys a := by
  intro xs
  induction xs with
  | nil =>
    intro ys acc
    simp [parseDigitsGo]
  | cons c cs ih =>
    intro ys acc
    by_cases h : 48 ≤ c ∧ c ≤ 57
    · simp [parseDigitsGo, h, ih]
    · simp [parseDigitsGo, h]

lemma parseDigitsGo_natRepr : ∀ n acc,
    parseDigitsGo (natRepr n) acc = some (acc * 10 ^ (natRepr n).length + n) := by
  intro n
  induction n using Nat.strong_induction_on with
  | _ n ih =>
    intro acc
    rw [natRepr]
    by_cases h : n < 10
    · rw [dif_pos h]
      have hcond : 48 ≤ 48 + n ∧ 48 + n ≤ 57 := by omega
      simp [parseDigitsGo, hcond]
    · rw [dif_neg h]
      have hdiv : n / 10 < n := Nat.div_lt_self (by omega) (by omega)
      have hmod : 48 ≤ 48 + n % 10 ∧ 48 + n % 10 ≤ 57 := by
        have hm : n % 10 < 10 := Nat.mod_lt n (by omega)
        omega
      rw [parseDigitsGo_append, ih (n / 10) hdiv]
      simp [parseDigitsGo, hmod, pow_succ]
      rw [← Nat.mul_assoc]
      generalize acc * 10 ^ (natRepr (n / 10)).length = m
      omega

lemma parseUsize_natRepr (n : Nat) : parseUsize (natRepr n) = some n := by
  obtain ⟨c, cs, hcons⟩ := List.exists_cons_of_ne_nil (natRepr_ne_nil n)
  have hc : 48 ≤ c ∧ c ≤ 57 := by
    apply natRepr_digits n c
    rw [hcons]
    exact List.mem_cons_self c cs
  have h43 : ¬ c = 43 := by omega
  have hgo := parseDigitsGo_natRepr n 0
  rw [hcons] at hgo
  simp at hgo
  rw [hcons]
  simp [parseUsize, h43, parseDigits]
  exact hgo

lemma statFromString_formatStat (st : Stat) :
    statFromString (formatStat st) =
      some { name := [], quality := st.quality, quantity := st.quantity, checks := some 0 } := by
  cases st with
  | mk name quality quantity checks =>
    cases quality <;>
      simp [formatStat, statFromString, rustSliceFrom, isCharBoundary, sliceFrom, utf8Size,
        parseUsize_natRepr]

lemma rollLoop_length_ge (adv dis quality : Nat) (rng : Nat → Nat) :
    ∀ fuel q i (s : Int) (f : Nat) (res : List Nat) out,
      rollLoop adv dis quality rng fuel q i s f res = some out →
      res.length + q ≤ out.2.2.length := by
  intro fuel
  induction fuel with
  | zero =>
    intro q i s f res out h
    by_cases hq : q = 0
    · subst hq
      simp [rollLoop] at h
      simp [← h]
    · simp [rollLoop, hq] at h
  | succ fuel ih =>
    intro q i s f res out h
    by_cases hq : q = 0
    · subst hq
      simp [rollLoop] at h
      simp [← h]
    · simp only [rollLoop, hq, if_false] at h
      have := ih _ _ _ _ _ _ h
      simp only [List.length_append, List.length_cons, List.length_nil] at this
      by_cases hex : 0 < adv ∧ dieFace (rng i) = 6
      · rw [if_pos hex] at this
        omega
      · rw [if_neg hex] at this
        omega

lemma ite_adv_sub (adv : Nat) : (if 0 < adv then adv - 1 else 0) = adv - 1 := by
  by_cases ha : 0 < adv
  · rw [if_pos ha]
  · rw [if_neg ha]
    omega

/-- C1: when `disadvantage ≥ 1` and the required reduction `disadvantage - 1`
exceeds the effective dice count `stat.quantity + max(0, advantage - 1)`,
`roll_stat` returns the zero `RollResult` with no dice drawn (for any
randomness source and even a zero iteration budget); otherwise the
reduction is subtracted from the dice count before drawing, so at least
`effective - (disadvantage - 1)` dice are recorded, and exactly that many
when there is no advantage. -/
theorem C1_disadvantage_reduction (stat : Stat) (adv dis : Nat) (rng : Nat → Nat)
    (fuel : Nat) (hdis : 1 ≤ dis) :
    (stat.quantity + (adv - 1) < dis - 1 →
      rollStatFuel fuel stat adv dis rng =
        some { successes := 0, failures := 0, results := [] }) ∧
    (dis - 1 ≤ stat.quantity + (adv - 1) →
      ∀ r, rollStatFuel fuel stat adv dis rng = some r →
        stat.quantity + (adv - 1) - (dis - 1) ≤ r.results.length ∧
          (adv = 0 → r.results.length = stat.quantity - (dis - 1))) := by
  constructor
  · intro hlt
    simp only [rollStatFuel, ite_adv_sub]
    rw [if_pos ⟨by omega, hlt⟩]
  · intro hle r hr
    simp only [rollStatFuel, ite_adv_sub] at hr
    rw [if_neg (by omega : ¬ (0 < dis ∧ stat.quantity + (adv - 1) < dis - 1))] at hr
    rcases Option.map_eq_some'.mp hr with ⟨out, hout, hrout⟩
    constructor
    · have := rollLoop_length_ge adv dis stat.quality.threshold rng fuel _ 0 0 0 [] out hout
      rw [← hrout]
      simpa using this
    · intro ha0
      subst ha0
      have := rollLoop_adv0_length dis stat.quality.threshold rng fuel _ 0 0 0 [] out hout
      rw [← hrout]
      simp only [List.length_nil, Nat.zero_add] at this
      simp [this]

/-- Witness for `C1_disadvantage_reduction` at `stat = B1`, `advantage = 0`,
`disadvantage = 3`, fuel `0`. -/
theorem C1_witness :
    1 ≤ 3 ∧
    ((statB1.quantity + (0 - 1) < 3 - 1 →
        rollStatFuel 0 statB1 0 3 rngOne =
          some { successes := 0, failures := 0, results := [] }) ∧
      (3 - 1 ≤ statB1.quantity + (0 - 1) →
        ∀ r, rollStatFuel 0 statB1 0 3 rngOne = some r →
          statB1.quantity + (0 - 1) - (3 - 1) ≤ r.results.length ∧
            (0 = 0 → r.results.length = statB1.quantity - (3 - 1)))) :=
  ⟨by omega, C1_disadvantage_reduction statB1 0 3 rngOne 0 (by omega)⟩

/-- C2, counterexample: for the stat `B1` rolled with `advantage = 0` and
`disadvantage = 2`, `roll_stat` reduces the pool by one die and returns an
empty results sequence, whose length `0` is smaller than
`stat.quantity = 1`, refuting `results.len() ≥ stat.quantity` for every
disadvantage level. -/
theorem C2_counterexample :
    rollStatFuel 1 statB1 0 2 rngOne =
      some { successes := 0, failures := 0, results := [] } ∧
    ¬ statB1.quantity ≤ (List.length ([] : List Nat)) := ⟨by decide, by decide⟩

/-- C2, amended: when `advantage = 0` and `disadvantage ≤ 1` (so no dice
are removed), the results sequence of `roll_stat` has length exactly
`stat.quantity`, for every stat and randomness source. -/
theorem C2_amended_exact_length (stat : Stat) (dis : Nat) (rng : Nat → Nat) (fuel : Nat)
    (hdis : dis ≤ 1) (hfuel : stat.quantity ≤ fuel) :
    ∃ r, rollStatFuel fuel stat 0 dis rng = some r ∧
      r.results.length = stat.quantity := by
  have hred : (if 0 < dis then dis - 1 else 0) = 0 := by
    by_cases hd : 0 < dis
    · rw [if_pos hd]
      omega
    · rw [if_neg hd]
  simp only [rollStatFuel, hred, Nat.lt_irrefl, if_false, Nat.add_zero, Nat.sub_zero]
  rw [if_neg (by omega : ¬ (0 < dis ∧ stat.quantity < dis - 1))]
  obtain ⟨out, hout⟩ :=
    rollLoop_adv0_some dis stat.quality.threshold rng fuel stat.quantity 0 0 0 [] hfuel
  have hlen := rollLoop_adv0_length dis stat.quality.threshold rng fuel _ 0 0 0 [] out hout
  refine ⟨{ successes := out.1, failures := out.2.1, results := out.2.2 }, ?_, ?_⟩
  · rw [hout]
    rfl
  · simpa using hlen

/-- Witness for `C2_amended_exact_length` at `stat = B1`, `disadvantage = 1`. -/
theorem C2_amended_witness :
    (1 : Nat) ≤ 1 ∧ statB1.quantity ≤ 1 ∧
    ∃ r, rollStatFuel 1 statB1 0 1 rngOne = some r ∧
      r.results.length = statB1.quantity :=
  ⟨by decide, by decide, C2_amended_exact_length statB1 1 rngOne 1 (by decide) (by decide)⟩

/-- C3: `impl From<String> for Obstacle` slices `value[2..]` unchecked, so
on the empty string and on the one-character string `"x"` the code panics
(modelled by `none`) instead of reporting an `InvalidFormat` error. -/
theorem C3_short_input_panics :
    obstacleFromString [] = none ∧ obstacleFromString [120] = none := ⟨by decide, by decide⟩

/-- C4: `impl From<String> for Stat` slices `value[1..]` at byte index 1,
which is not a character boundary when the first character is multi-byte:
on the one-character string `"é"` (U+00E9) the code panics (modelled by
`none`) instead of returning a usable Stat. -/
theorem C4_multibyte_first_char_panics : statFromString [233] = none := by decide

/-- C5: parsing, then formatting, then re-parsing a stat is idempotent on
the quality and quantity: for every input string, re-parsing the formatted
form of the parsed stat yields the same quality and quantity (name and
checks are reset by parsing, not round-tripped). -/
theorem C5_parse_format_roundtrip (s : List Nat) :
    ((statFromString s).bind fun st => statFromString (formatStat st)).map statQQ =
      (statFromString s).map statQQ := by
  cases hs : statFromString s with
  | none => simp
  | some st => simp [statFromString_formatStat st, statQQ]

/-- The deterministic byte stream whose first seven draws produce the die
sequence `(1, 1, 4, 4, 4, 6, 6)`. -/
def rngC6 : Nat → Nat := fun i => List.getD [0, 0, 3, 3, 3, 5, 5] i 0

/-- C6: for the stat parsed from `"A8"` (Adept, threshold 3, quantity 8)
rolled with `advantage = 0` and `disadvantage = 2`, a randomness source
whose draws give the die sequence `(1, 1, 4, 4, 4, 6, 6)` yields
`successes = 3`: two low-roll penalties of −1 against five base
successes. -/
theorem C6_A8_disadvantage2_example (rng : Nat → Nat)
    (h0 : dieFace (rng 0) = 1) (h1 : dieFace (rng 1) = 1)
    (h2 : dieFace (rng 2) = 4) (h3 : dieFace (rng 3) = 4)
    (h4 : dieFace (rng 4) = 4) (h5 : dieFace (rng 5) = 6)
    (h6 : dieFace (rng 6) = 6) :
    statFromString [65, 56] = some statA8 ∧
    rollStatFuel 7 statA8 0 2 rng =
      some { successes := 3, failures := 2, results := [1, 1, 4, 4, 4, 6, 6] } := by
  refine ⟨by decide, ?_⟩
  simp [rollStatFuel, rollLoop, statA8, Quality.threshold, h0, h1, h2, h3, h4, h5, h6]

/-- Witness for `C6_A8_disadvantage2_example` at the concrete byte stream
`rngC6`. -/
theorem C6_witness :
    dieFace (rngC6 0) = 1 ∧ dieFace (rngC6 1) = 1 ∧ dieFace (rngC6 2) = 4 ∧
    dieFace (rngC6 3) = 4 ∧ dieFace (rngC6 4) = 4 ∧ dieFace (rngC6 5) = 6 ∧
    dieFace (rngC6 6) = 6 ∧
    (statFromString [65, 56] = some statA8 ∧
      rollStatFuel 7 statA8 0 2 rngC6 =
        some { successes := 3, failures := 2, results := [1, 1, 4, 4, 4, 6, 6] }) :=
  ⟨by decide, by decide, by decide, by decide, by decide, by decide, by decide,
    C6_A8_disadvantage2_example rngC6 (by decide) (by decide) (by decide) (by decide)
      (by decide) (by decide) (by decide)⟩

/-- C7: every drawn face lies in `[1, 6]`, but the faces are not produced
by equally many byte preimages: under a uniform random byte,
`(byte % 6) + 1` gives faces 1-4 each 43 of the 256 preimages and faces
5-6 only 42, so the drawn distribution is not uniform over `{1..6}`. -/
theorem C7_face_range_and_bias :
    facePreimages 1 = 43 ∧ facePreimages 2 = 43 ∧ facePreimages 3 = 43 ∧
    facePreimages 4 = 43 ∧ facePreimages 5 = 42 ∧ facePreimages 6 = 42 ∧
    ∀ b : Nat, 1 ≤ dieFace b ∧ dieFace b ≤ 6 := by
  refine ⟨by decide, by decide, by decide, by decide, by decide, by decide, fun b => ?_⟩
  unfold dieFace
  have hb : b % 6 < 6 := Nat.mod_lt b (by omega)
  omega

/-- C8, counterexample: with `advantage = 1`, the stat `B1`, and a
randomness source that yields the face 6 on every draw, the exploding-die
drawing loop never reaches a zero remaining-to-draw counter: no iteration
budget suffices, so `roll_stat` does not terminate on this source. -/
theorem C8_counterexample :
    ¬ ∃ fuel r, rollStatFuel fuel statB1 1 0 rngSix = some r := by
  rintro ⟨fuel, r, hr⟩
  have hnone : rollStatFuel fuel statB1 1 0 rngSix = none := by
    simp only [rollStatFuel, statB1, ite_adv_sub]
    rw [if_neg (by omega : ¬ ((0:Nat) < 0 ∧ 1 + (1 - 1) < 0 - 1))]
    rw [rollLoop_allSix_none 1 0 Quality.Basic.threshold (by omega) fuel _ 0 0 0 []
      (by omega)]
    rfl
  rw [hnone] at hr
  exact Option.noConfusion hr

/-- C8, amended: when `advantage = 0` there is no exploding-die rule, and
`roll_stat` terminates for every stat, disadvantage level, and randomness
source; an iteration budget of `stat.quantity` always suffices. -/
theorem C8_advantage0_terminates (stat : Stat) (dis : Nat) (rng : Nat → Nat) :
    ∃ r, rollStatFuel stat.quantity stat 0 dis rng = some r := by
  simp only [rollStatFuel, Nat.lt_irrefl, if_false, Nat.add_zero]
  by_cases hcond : 0 < dis ∧ stat.quantity < dis - 1
  · rw [if_pos hcond]
    exact ⟨_, rfl⟩
  · rw [if_neg hcond]
    obtain ⟨out, hout⟩ :=
      rollLoop_adv0_some dis stat.quality.threshold rng stat.quantity
        (stat.quantity - (if 0 < dis then dis - 1 else 0)) 0 0 0 [] (by omega)
    rw [hout]
    exact ⟨_, rfl⟩

/-- C9: `Quality` orders its tiers by capability — Superb above Adept
above Basic — and this ordering is exactly the inverse of the numeric
thresholds `Basic = 4`, `Adept = 3`, `Superb = 2` carried by the enum
discriminants: the comparison is an irreflexive, transitive, total strict
order. -/
theorem C9_quality_capability_order :
    (Quality.threshold Quality.Basic = 4 ∧ Quality.threshold Quality.Adept = 3 ∧
      Quality.threshold Quality.Superb = 2) ∧
    (capabilityGt Quality.Superb Quality.Adept ∧
      capabilityGt Quality.Adept Quality.Basic ∧
      capabilityGt Quality.Superb Quality.Basic) ∧
    (∀ a : Quality, ¬ capabilityGt a a) ∧
    (∀ a b c : Quality, capabilityGt a b → capabilityGt b c → capabilityGt a c) ∧
    (∀ a b : Quality, a ≠ b → capabilityGt a b ∨ capabilityGt b a) := by
  refine ⟨by decide, by decide, ?_, ?_, ?_⟩
  · intro a
    cases a <;> simp [capabilityGt, Quality.threshold]
  · intro a b c hab hbc
    cases a <;> cases b <;> cases c <;> simp_all [capabilityGt, Quality.threshold]
  · intro a b hne
    cases a <;> cases b <;> simp_all [capabilityGt, Quality.threshold]

/-- C10: with `disadvantage = 0`, every roll that completes satisfies
`successes ≥ 0` and `successes + failures = results.len()`: each drawn die
is counted exactly once, as a success when its face is at least the
quality threshold and as a failure otherwise. -/
theorem C10_no_disadvantage_invariant (stat : Stat) (adv fuel : Nat) (rng : Nat → Nat)
    (r : RollResult) (h : rollStatFuel fuel stat adv 0 rng = some r) :
    0 ≤ r.successes ∧
    r.successes + (r.failures : Int) = (r.results.length : Int) ∧
    r.successes = (r.results.countP fun x => decide (stat.quality.threshold ≤ x)) ∧
    r.failures = r.results.countP fun x => decide (x < stat.quality.threshold) := by
  simp only [rollStatFuel] at h
  rw [if_neg (by omega : ¬ ((0:Nat) < 0 ∧
    stat.quantity + (if 0 < adv then adv - 1 else 0) < 0 - 1))] at h
  rcases Option.map_eq_some'.mp h with ⟨out, hout, hr⟩
  obtain ⟨extra, hres, hs, hf⟩ :=
    rollLoop_dis0_spec adv stat.quality.threshold rng fuel _ 0 0 0 [] out hout
  simp only [List.nil_append, Int.zero_add, Nat.zero_add] at hres hs hf
  have hsplit := countP_threshold_split stat.quality.threshold extra
  subst hr
  refine ⟨?_, ?_, ?_, ?_⟩
  · simp only [hs]
    positivity
  · simp only [hs, hf, hres]
    omega
  · simp only [hs, hres]
  · simp only [hf, hres]

/-- Witness for `C10_no_disadvantage_invariant` at `stat = B1` with the
all-ones byte stream. -/
theorem C10_witness :
    0 ≤ ({ successes := 0, failures := 1, results := [1] } : RollResult).successes ∧
    ({ successes := 0, failures := 1, results := [1] } : RollResult).successes +
        (({ successes := 0, failures := 1, results := [1] } : RollResult).failures : Int) =
      (({ successes := 0, failures := 1, results := [1] } : RollResult).results.length : Int) ∧
    ({ successes := 0, failures := 1, results := [1] } : RollResult).successes =
      (({ successes := 0, failures := 1, results := [1] } : RollResult).results.countP
        fun x => decide (statB1.quality.threshold ≤ x)) ∧
    ({ successes := 0, failures := 1, results := [1] } : RollResult).failures =
      ({ successes := 0, failures := 1, results := [1] } : RollResult).results.countP
        fun x => decide (x < statB1.quality.threshold) :=
  C10_no_disadvantage_invariant statB1 0 1 rngOne
    { successes := 0, failures := 1, results := [1] } (by decide)
